import Mathlib

/-!
A verification development for the paastel image-build-and-publish pipeline
(`src/bin/build.rs`): the ignore-rule engine (`Dockerignore`), the context
archiver (`build_context_tar_gz`), the image-reference parser (`split_image`)
and the two stream consumers (the build loop in `run` and
`push_image_to_registry`).

Shallow embedding conventions:
* Rust strings are embedded as Lean `String`s at the interfaces and as their
  `List Char` character sequences internally; Rust byte indices over the
  (ASCII) inputs of interest correspond to character indices.  Rust's
  `str::trim`, `str::lines`, `char::is_whitespace` and friends are embedded
  as structurally recursive character-list functions below, so that every
  definition evaluates by kernel reduction.
* The `globset` dependency (`Glob::new` / `GlobMatcher::is_match`) is
  modelled by `globParse` / `GlobMatcher.is_match` for the dialect subset the
  rules in this repository exercise: literal characters, `*`, `?` and `[...]`
  character classes (with `!` negation).  With `globset`'s default settings
  (which `compile_matcher()` uses) there is no literal-separator special
  casing, so `*` and `?` may match `/`; a glob matches the WHOLE path, not a
  prefix or substring of it.  An unclosed `[` is the uncompilable-pattern
  case, as in `globset`.
* Filesystem walking (`WalkDir::new(dir).follow_links(false)`) is modelled by
  an explicit list of visited entries, each carrying its path components
  relative to the context root (`[]` is the root itself) and its file type.
  The source's `continue` statements skip a single yielded entry and never
  call `skip_current_dir`, so `WalkDir` still descends into skipped
  directories: the walk list therefore contains every entry of the tree
  regardless of any ignore decision, and the archiver is a per-entry filter
  over it.  `rel.to_string_lossy().replace('\\', "/")` is modelled by joining
  the components with `/`.
* The tar serialization plus gzip compression are injective byte-level
  encodings of the appended entry sequence; the archive is modelled by that
  entry sequence.
* The two daemon event streams are modelled as lists of
  `Except String message` (`.error` = a transport-level stream error,
  `.ok` = a decoded message); the consumers return the list of lines emitted
  on stdout/stderr from decoded messages together with the transport error
  that aborted them, if any.
-/

namespace Paastel

/-! ## Character-list embeddings of the Rust string operations used -/

/-- Rust `str::trim_start` (`trim_start()` after `!` also uses this):
drop leading whitespace. -/
def trimL : List Char → List Char
  | [] => []
  | c :: rest => if c.isWhitespace then trimL rest else c :: rest

/-- Rust `str::trim`: drop leading and trailing whitespace. -/
def rustTrim (cs : List Char) : List Char :=
  (trimL (trimL cs).reverse).reverse

/-- Split at every `'\n'`; a sequence with `n` newlines yields `n + 1`
pieces. -/
def splitNl : List Char → List (List Char)
  | [] => [[]]
  | c :: rest =>
    if c = '\n' then [] :: splitNl rest
    else
      match splitNl rest with
      | [] => [[c]]
      | p :: ps => (c :: p) :: ps

/-- Drop one trailing `'\r'`, as Rust's line iterator does per line. -/
def dropFinalCR (cs : List Char) : List Char :=
  if cs.getLast? = some '\r' then cs.dropLast else cs

/-- Rust `str::lines`: split on `'\n'`, drop the empty piece a trailing
newline produces, and strip one trailing `'\r'` from each line. -/
def rustLines (cs : List Char) : List (List Char) :=
  let ps := splitNl cs
  (if ps.getLast? = some [] then ps.dropLast else ps).map dropFinalCR

/-! ## Glob model (the `globset` dependency, default settings) -/

/-- One token of a compiled glob: a literal character, `*` (any sequence of
characters, `/` included, since `compile_matcher()` keeps
`literal_separator = false`), `?` (any single character), or a character
class `[...]` given by its raw contents. -/
inductive GlobToken where
  | lit (c : Char)
  | star
  | anyChar
  | cls (cs : List Char)
deriving DecidableEq, Repr

/-- A compiled glob (`globset::GlobMatcher`) is its token sequence. -/
abbrev GlobMatcher := List GlobToken

/-- Does a character class with raw contents `cs` accept character `d`?
A leading `!` negates the class. -/
def clsAccepts (cs : List Char) (d : Char) : Bool :=
  match cs with
  | '!' :: rest => !(rest.contains d)
  | _ => cs.contains d

/-- Matching a token sequence against a character sequence; the glob must
cover the whole input (the match is anchored at both ends).  The `fuel`
argument only bounds the recursion depth so that the definition is
structural and kernel-computable; `globMatchFuel_sufficient` shows any fuel
beyond `tokens + characters` gives the same answer. -/
def globMatchFuel : Nat → List GlobToken → List Char → Bool
  | 0, _, _ => false
  | _ + 1, [], [] => true
  | _ + 1, [], _ :: _ => false
  | _ + 1, .lit _ :: _, [] => false
  | n + 1, .lit c :: ts, d :: ds => c == d && globMatchFuel n ts ds
  | _ + 1, .anyChar :: _, [] => false
  | n + 1, .anyChar :: ts, _ :: ds => globMatchFuel n ts ds
  | _ + 1, .cls _ :: _, [] => false
  | n + 1, .cls cs :: ts, d :: ds => clsAccepts cs d && globMatchFuel n ts ds
  | n + 1, .star :: ts, [] => globMatchFuel n ts []
  | n + 1, .star :: ts, d :: ds =>
    globMatchFuel n ts (d :: ds) || globMatchFuel n (.star :: ts) ds

/-- Glob matching with always-sufficient fuel. -/
def globMatchL (ts : List GlobToken) (cs : List Char) : Bool :=
  globMatchFuel (ts.length + cs.length + 1) ts cs

/-- `GlobMatcher::is_match` applied to a path string. -/
def GlobMatcher.is_match (m : GlobMatcher) (s : String) : Bool :=
  globMatchL m s.toList

/-- As long as the fuel exceeds the combined length of the token and
character sequences, its exact value does not affect `globMatchFuel`. -/
theorem globMatchFuel_sufficient (n : Nat) :
    ∀ (m : Nat) (ts : List GlobToken) (cs : List Char),
      ts.length + cs.length < n → ts.length + cs.length < m →
      globMatchFuel n ts cs = globMatchFuel m ts cs := by
  induction n with
  | zero => intro m ts cs hn; omega
  | succ k ih =>
    intro m ts cs hn hm
    match m with
    | 0 => omega
    | l + 1 =>
      revert hn hm
      match ts, cs with
      | [], [] => intro hn hm; rfl
      | [], _ :: _ => intro hn hm; rfl
      | .lit _ :: _, [] => intro hn hm; rfl
      | .lit c :: ts, d :: ds =>
        intro hn hm
        simp only [List.length_cons] at hn hm
        show (c == d && globMatchFuel k ts ds) = (c == d && globMatchFuel l ts ds)
        rw [ih l ts ds (by omega) (by omega)]
      | .anyChar :: _, [] => intro hn hm; rfl
      | .anyChar :: ts, d :: ds =>
        intro hn hm
        simp only [List.length_cons] at hn hm
        show globMatchFuel k ts ds = globMatchFuel l ts ds
        exact ih l ts ds (by omega) (by omega)
      | .cls _ :: _, [] => intro hn hm; rfl
      | .cls cs' :: ts, d :: ds =>
        intro hn hm
        simp only [List.length_cons] at hn hm
        show (clsAccepts cs' d && globMatchFuel k ts ds)
          = (clsAccepts cs' d && globMatchFuel l ts ds)
        rw [ih l ts ds (by omega) (by omega)]
      | .star :: ts, [] =>
        intro hn hm
        simp only [List.length_cons, List.length_nil] at hn hm
        show globMatchFuel k ts [] = globMatchFuel l ts []
        exact ih l ts [] (by simp; omega) (by simp; omega)
      | .star :: ts, d :: ds =>
        intro hn hm
        simp only [List.length_cons] at hn hm
        show (globMatchFuel k ts (d :: ds) || globMatchFuel k (.star :: ts) ds)
          = (globMatchFuel l ts (d :: ds) || globMatchFuel l (.star :: ts) ds)
        rw [ih l ts (d :: ds) (by simp; omega) (by simp; omega),
          ih l (.star :: ts) ds (by simp; omega) (by simp; omega)]

/-- `globset::Glob::new` for the modelled dialect subset, as a single-pass
tokenizer; the second argument carries the contents of a currently open
character class.  An unclosed class is the compilation failure. -/
def globParseAux : List Char → Option (List Char) → List GlobToken →
    Except String GlobMatcher
  | [], some _, _ => .error "unclosed character class"
  | [], none, acc => .ok acc.reverse
  | c :: rest, some cls, acc =>
    if c = ']' then globParseAux rest none (GlobToken.cls cls.reverse :: acc)
    else globParseAux rest (some (c :: cls)) acc
  | c :: rest, none, acc =>
    if c = '*' then globParseAux rest none (GlobToken.star :: acc)
    else if c = '?' then globParseAux rest none (GlobToken.anyChar :: acc)
    else if c = '[' then globParseAux rest (some []) acc
    else globParseAux rest none (GlobToken.lit c :: acc)

/-- `Glob::new` on a pattern character sequence. -/
def globParse (pat : List Char) : Except String GlobMatcher :=
  globParseAux pat none []

/-! ## `split_image` (src/bin/build.rs lines 202-220) -/

/-- Index of the last occurrence of `c` (Rust `str::rfind` over the char
sequence). -/
def rfindIdx (c : Char) : List Char → Option Nat
  | [] => none
  | d :: ds =>
    match rfindIdx c ds with
    | some i => some (i + 1)
    | none => if d == c then some 0 else none

/-- `split_image`: the last `:` after the last `/` (or the last `:` when no
`/` occurs) separates repository from tag; otherwise the whole string is the
repository and the tag defaults to `"latest"`. -/
def split_image (image : String) : String × String :=
  let cs := image.toList
  match rfindIdx ':' cs, rfindIdx '/' cs with
  | some c, some s =>
    if s < c then (⟨cs.take c⟩, ⟨cs.drop (c + 1)⟩)
    else (image, "latest")
  | some c, none => (⟨cs.take c⟩, ⟨cs.drop (c + 1)⟩)
  | _, _ => (image, "latest")

/-- Does a tag separator apply to `image`?  True exactly in the two
splitting arms of `split_image`. -/
def tagSepApplies (image : String) : Bool :=
  match rfindIdx ':' image.toList, rfindIdx '/' image.toList with
  | some c, some s => s < c
  | some _, none => true
  | _, _ => false

/-! ## The ignore engine (`Dockerignore`, src/bin/build.rs lines 222-281) -/

/-- `.dockerignore` rules: a compiled matcher and its polarity
(`true` = exclude, `false` = the `!pattern` re-include form), in file line
order. -/
structure Dockerignore where
  rules : List (GlobMatcher × Bool)
deriving DecidableEq, Repr

/-- `Dockerignore::is_ignored`: scan every rule in order, remembering whether
any rule matched and the polarity of the last match; the path is ignored only
when some rule matched and the last match excludes. -/
def Dockerignore.is_ignored (di : Dockerignore) (rel_path : String) : Bool :=
  let res := di.rules.foldl
    (fun acc r => if r.1.is_match rel_path then (true, r.2) else acc)
    (false, false)
  res.1 && res.2

/-- Is a raw `.dockerignore` line usable, i.e. neither blank nor a comment
after trimming? -/
def usableLine (raw : List Char) : Bool :=
  let line := rustTrim raw
  !(line.isEmpty || line.head? == some '#')

/-- The pattern text and polarity a usable raw line contributes: a leading
`!` is stripped (and the remainder trimmed on the left) and marks
re-include. -/
def linePattern (raw : List Char) : List Char × Bool :=
  let line := rustTrim raw
  if line.head? = some '!' then (trimL (line.drop 1), false)
  else (line, true)

/-- The error message `load_dockerignore` attaches to an uncompilable
pattern; it carries the offending raw line. -/
def patternErrMsg (raw : List Char) : String :=
  "Padrão inválido em .dockerignore: " ++ String.mk raw

/-- The per-line loop body of `load_dockerignore`: skip blank/comment lines,
compile each remaining pattern, keep file order, abort on the first
uncompilable pattern with a message naming the raw line. -/
def parseLines : List (List Char) → Except String (List (GlobMatcher × Bool))
  | [] => .ok []
  | raw :: rest =>
    if usableLine raw then
      match globParse (linePattern raw).1 with
      | .ok m => (parseLines rest).map ((m, (linePattern raw).2) :: ·)
      | .error _ => .error (patternErrMsg raw)
    else parseLines rest

/-- `load_dockerignore`: `none` as input models an absent `.dockerignore`
file, `some text` its contents.  Returns no engine when the file is absent
or yields no rules; an uncompilable pattern aborts with an error and no
partial engine. -/
def load_dockerignore (contents : Option String) :
    Except String (Option Dockerignore) :=
  match contents with
  | none => .ok none
  | some text =>
    match parseLines (rustLines text.toList) with
    | .error e => .error e
    | .ok rules => if rules.isEmpty then .ok none else .ok (some ⟨rules⟩)

/-! ## The context archiver (`build_context_tar_gz`, lines 283-340) -/

/-- The file type `walkdir` reports for an entry. -/
inductive FileType where
  | file
  | dir
  | symlink
  | other
deriving DecidableEq, Repr

/-- One entry yielded by the walk: its path components relative to the
context root (`[]` is the root itself), its type, and (for regular files)
its content. -/
structure WalkEntry where
  relComponents : List String
  ftype : FileType
  content : String
deriving DecidableEq, Repr

/-- Join path components with `/` (the forward-slash-normalized form of
`rel.to_string_lossy().replace('\\', "/")`). -/
def joinSlash : List String → String
  | [] => ""
  | [s] => s
  | s :: rest => s ++ "/" ++ joinSlash rest

/-- The normalized relative path string of a walk entry. -/
def relStr (e : WalkEntry) : String :=
  joinSlash e.relComponents

/-- One appended tar entry: its name (the normalized relative path) and the
file content stored under it. -/
structure TarEntry where
  name : String
  content : String
deriving DecidableEq, Repr

/-- `is_ignored` under an optional engine: no engine means nothing is
ignored. -/
def ignoredOpt (di : Option Dockerignore) (rel : String) : Bool :=
  match di with
  | some d => d.is_ignored rel
  | none => false

/-- The per-entry decision of the walk loop: skip the root, skip ignored
paths, append regular files under their normalized relative path. -/
def entryToTar (di : Option Dockerignore) (e : WalkEntry) : Option TarEntry :=
  if e.relComponents = [] then none
  else if ignoredOpt di (relStr e) then none
  else if e.ftype = FileType.file then some ⟨relStr e, e.content⟩
  else none

/-- `build_context_tar_gz`: load the ignore engine (propagating its error,
so no archive is built from a bad pattern), then filter the walk entry by
entry.  The archive is the resulting entry sequence (tar + gzip being
injective encodings of it). -/
def build_context_tar_gz (ignoreContents : Option String)
    (walk : List WalkEntry) : Except String (List TarEntry) :=
  match load_dockerignore ignoreContents with
  | .error e => .error e
  | .ok di => .ok (walk.filterMap (entryToTar di))

/-! ## The stream consumers (`run` lines 115-129, `push_image_to_registry`
lines 166-190) -/

/-- A line emitted on stdout (`print!`/`println!`) or stderr
(`eprintln!`). -/
inductive OutEvent where
  | out (s : String)
  | err (s : String)
deriving DecidableEq, Repr

/-- The fields of a decoded build-stream message the loop inspects
(bollard's `BuildInfo`: an optional log chunk `stream` and an optional
embedded `error`; one message may carry both). -/
structure BuildOutput where
  stream : Option String
  error : Option String
deriving DecidableEq, Repr

/-- The fields of a decoded push-stream message the loop inspects
(bollard's `PushImageInfo`). -/
structure PushImageInfo where
  status : Option String
  progress : Option String
  error : Option String
deriving DecidableEq, Repr

/-- What the build loop emits for one decoded message: the log chunk to
stdout when present, then the embedded error to stderr when present. -/
def buildStep (o : BuildOutput) : List OutEvent :=
  (match o.stream with
   | some s => [OutEvent.out s]
   | none => []) ++
  (match o.error with
   | some e => [OutEvent.err ("Docker build error: " ++ e)]
   | none => [])

/-- What the push loop emits for one decoded message, following the source's
match order: a present `error` field is reported alone to stderr; otherwise
`status` with `progress` are reported together; otherwise a lone `status` is
reported alone; any other shape is silently ignored. -/
def pushStep (i : PushImageInfo) : List OutEvent :=
  match i with
  | ⟨_, _, some e⟩ => [OutEvent.err ("❌ Docker push error: " ++ e)]
  | ⟨some s, some p, none⟩ => [OutEvent.out ("→ " ++ s ++ " | " ++ p)]
  | ⟨some s, none, none⟩ => [OutEvent.out ("→ " ++ s)]
  | _ => []

/-- The message the build loop aborts with on a transport-level stream
error. -/
def buildTransportMsg (e : String) : String :=
  "Erro durante o stream do build: " ++ e

/-- The message the push loop aborts with on a transport-level stream
error. -/
def pushTransportMsg (e : String) : String :=
  "Erro durante o push da imagem: " ++ e

/-- The build `while let` loop over the stream: each `.ok` message is
processed by `buildStep` and consumption continues; the first `.error`
(transport error) aborts immediately, leaving the rest of the stream
unconsumed.  Returns the emitted lines and the fatal error, if any. -/
def consumeBuild : List (Except String BuildOutput) →
    List OutEvent × Option String
  | [] => ([], none)
  | .error e :: _ => ([], some (buildTransportMsg e))
  | .ok o :: rest =>
    let r := consumeBuild rest
    (buildStep o ++ r.1, r.2)

/-- The push `while let` loop, same shape as `consumeBuild`. -/
def consumePush : List (Except String PushImageInfo) →
    List OutEvent × Option String
  | [] => ([], none)
  | .error e :: _ => ([], some (pushTransportMsg e))
  | .ok i :: rest =>
    let r := consumePush rest
    (pushStep i ++ r.1, r.2)

/-- The stream-consuming part of `run`: drain the build stream; a build
transport error aborts the run before the push is started (`?` after
`build_image`'s loop); otherwise drain the push stream.  Returns all emitted
lines and the fatal error, if any; `none` is overall success. -/
def runStreams (bs : List (Except String BuildOutput))
    (ps : List (Except String PushImageInfo)) :
    List OutEvent × Option String :=
  let rb := consumeBuild bs
  match rb.2 with
  | some e => (rb.1, some e)
  | none =>
    let rp := consumePush ps
    (rb.1 ++ rp.1, rp.2)

/-! ## Theorems -/

/-- The `is_ignored` accumulator loop computes the last matching rule: the
fold ends in `(true, pol)` when the last rule matching `p` has polarity
`pol`, and is the initial accumulator when no rule matches. -/
theorem foldl_lastMatch (p : String) (l : List (GlobMatcher × Bool))
    (acc : Bool × Bool) :
    l.foldl (fun acc r => if r.1.is_match p then (true, r.2) else acc) acc
      = ((l.filter (fun r => r.1.is_match p)).getLast?).elim acc
          (fun r => (true, r.2)) := by
  induction l using List.reverseRecOn generalizing acc with
  | nil => simp
  | append_singleton l a ih =>
    rw [List.foldl_append, List.filter_append]
    simp only [List.foldl_cons, List.foldl_nil, List.filter_cons,
      List.filter_nil]
    cases hf : a.1.is_match p with
    | true => simp [List.getLast?_concat]
    | false =>
      simp only [Bool.false_eq_true, if_false, List.append_nil]
      exact ih acc

/-- C1: `Dockerignore::is_ignored` returns `true` iff at least one rule
matches the path and the last matching rule (in file order) has polarity
exclude; a path matched by no rule is always included. -/
theorem C1_is_ignored_last_match_wins (di : Dockerignore) (p : String) :
    (di.is_ignored p = true ↔
      ((di.rules.filter (fun r => r.1.is_match p)).getLast?).map Prod.snd
        = some true)
    ∧ ((∀ r ∈ di.rules, r.1.is_match p = false) → di.is_ignored p = false) := by
  constructor
  · unfold Dockerignore.is_ignored
    rw [foldl_lastMatch]
    cases h : (di.rules.filter (fun r => r.1.is_match p)).getLast? with
    | none => simp
    | some r => simp
  · intro hnone
    unfold Dockerignore.is_ignored
    rw [foldl_lastMatch]
    have : di.rules.filter (fun r => r.1.is_match p) = [] := by
      rw [List.filter_eq_nil_iff]
      intro r hr
      simp [hnone r hr]
    rw [this]
    simp

/-- Witness for C1 at concrete inputs: under the rule list
`["*.log" exclude, "keep.log" re-include]` the path `"keep.log"` matches
both rules and the last match re-includes, so it is not ignored; and under
the single rule `"a"` the path `"b"` matches no rule, so it is included. -/
theorem C1_is_ignored_last_match_wins_witness :
    (Dockerignore.is_ignored
      ⟨[([GlobToken.star, GlobToken.lit '.', GlobToken.lit 'l',
          GlobToken.lit 'o', GlobToken.lit 'g'], true),
        ([GlobToken.lit 'k', GlobToken.lit 'e', GlobToken.lit 'e',
          GlobToken.lit 'p', GlobToken.lit '.', GlobToken.lit 'l',
          GlobToken.lit 'o', GlobToken.lit 'g'], false)]⟩ "keep.log" = false)
    ∧ (Dockerignore.is_ignored ⟨[([GlobToken.lit 'a'], true)]⟩ "b" = false) := by
  constructor
  · have h := (C1_is_ignored_last_match_wins
      ⟨[([GlobToken.star, GlobToken.lit '.', GlobToken.lit 'l',
          GlobToken.lit 'o', GlobToken.lit 'g'], true),
        ([GlobToken.lit 'k', GlobToken.lit 'e', GlobToken.lit 'e',
          GlobToken.lit 'p', GlobToken.lit '.', GlobToken.lit 'l',
          GlobToken.lit 'o', GlobToken.lit 'g'], false)]⟩ "keep.log").1
    revert h
    decide
  · exact (C1_is_ignored_last_match_wins ⟨[([GlobToken.lit 'a'], true)]⟩ "b").2
      (by decide)

/-- C4: the four normative `split_image` examples; in the last one the colon
precedes the last slash and is therefore not a tag separator. -/
theorem C4_split_image_examples :
    split_image "nginx" = ("nginx", "latest")
    ∧ split_image "sample-nginx:dev" = ("sample-nginx", "dev")
    ∧ split_image "localhost:5000/teste/nginx:dev"
        = ("localhost:5000/teste/nginx", "dev")
    ∧ split_image "localhost:5000/nginx" = ("localhost:5000/nginx", "latest") := by
  refine ⟨?_, ?_, ?_, ?_⟩ <;> decide

/-- C3 counterexample: on the input `":"` a tag separator applies and
`split_image` returns an empty repository and an empty tag, so neither
component is guaranteed non-empty over all inputs. -/
theorem C3_counterexample_empty_components :
    split_image ":" = ("", "") ∧ (split_image ":").1 = "" := by
  decide

/-- `rfindIdx` returns the position of an occurrence: the index is in range
and holds the sought character. -/
theorem rfindIdx_some {c : Char} {l : List Char} {i : Nat}
    (h : rfindIdx c l = some i) : i < l.length ∧ l[i]? = some c := by
  induction l generalizing i with
  | nil => simp [rfindIdx] at h
  | cons d ds ih =>
    rw [rfindIdx] at h
    cases hr : rfindIdx c ds with
    | some j =>
      rw [hr] at h
      cases h
      have hj := ih hr
      refine ⟨by simp; omega, ?_⟩
      simpa using hj.2
    | none =>
      rw [hr] at h
      by_cases hd : (d == c) = true
      · rw [if_pos hd] at h
        cases h
        refine ⟨by simp, ?_⟩
        simp [(by simpa using hd : d = c)]
      · rw [if_neg hd] at h
        cases h

/-- A string made from a non-empty character list is not the empty
string. -/
theorem mk_ne_empty {xs : List Char} (hxs : xs ≠ []) : (⟨xs⟩ : String) ≠ "" :=
  fun he => hxs (congrArg String.data he)

/-- C3 (amended): for every input that is non-empty and neither starts nor
ends with `':'`, `split_image` returns a non-empty repository and a
non-empty tag, and the tag is `"latest"` whenever no tag separator applies.
(The unamended claim fails at `":"`, see the counterexample.) -/
theorem C3_amended_split_image_nonempty (image : String)
    (h1 : image ≠ "") (h2 : image.toList.head? ≠ some ':')
    (h3 : image.toList.getLast? ≠ some ':') :
    (split_image image).1 ≠ "" ∧ (split_image image).2 ≠ ""
    ∧ (tagSepApplies image = false → (split_image image).2 = "latest") := by
  have hlatest : ("latest" : String) ≠ "" := by decide
  have hc1 : ∀ i, rfindIdx ':' image.toList = some i → 1 ≤ i := by
    intro i hi
    rcases rfindIdx_some hi with ⟨_, hget⟩
    by_contra hlt
    have hi0 : i = 0 := by omega
    subst hi0
    exact h2 (by rw [List.head?_eq_getElem?]; exact hget)
  have hc2 : ∀ i, rfindIdx ':' image.toList = some i →
      image.toList.drop (i + 1) ≠ [] := by
    intro i hi hdrop
    rcases rfindIdx_some hi with ⟨hilt, hget⟩
    rw [List.drop_eq_nil_iff] at hdrop
    have hie : i = image.toList.length - 1 := by omega
    exact h3 (by rw [List.getLast?_eq_getElem?, ← hie]; exact hget)
  have htake : ∀ i, rfindIdx ':' image.toList = some i →
      image.toList.take i ≠ [] := by
    intro i hi htk
    rcases rfindIdx_some hi with ⟨hilt, _⟩
    rcases List.take_eq_nil_iff.mp htk with h0 | hnil
    · exact absurd (hc1 i hi) (by omega)
    · rw [hnil] at hilt
      simp at hilt
  simp only [split_image, tagSepApplies]
  cases hc : rfindIdx ':' image.toList with
  | none =>
    cases hs : rfindIdx '/' image.toList with
    | none => exact ⟨h1, hlatest, fun _ => rfl⟩
    | some s => exact ⟨h1, hlatest, fun _ => rfl⟩
  | some c =>
    cases hs : rfindIdx '/' image.toList with
    | none =>
      exact ⟨mk_ne_empty (htake c hc), mk_ne_empty (hc2 c hc),
        fun hfalse => by simp at hfalse⟩
    | some s =>
      by_cases hlt : s < c
      · simp only [if_pos hlt]
        exact ⟨mk_ne_empty (htake c hc), mk_ne_empty (hc2 c hc),
          fun hfalse => by simp [hlt] at hfalse⟩
      · simp only [if_neg hlt]
        refine ⟨h1, hlatest, ?_⟩
        simp

/-- Witness for C3 (amended) at `"localhost:5000/nginx"`: non-empty, does
not start or end with `':'`, no tag separator applies, and the result has a
non-empty repository and the tag `"latest"`. -/
theorem C3_amended_split_image_nonempty_witness :
    ("localhost:5000/nginx" : String) ≠ ""
    ∧ "localhost:5000/nginx".toList.head? ≠ some ':'
    ∧ "localhost:5000/nginx".toList.getLast? ≠ some ':'
    ∧ ((split_image "localhost:5000/nginx").1 ≠ ""
        ∧ (split_image "localhost:5000/nginx").2 ≠ ""
        ∧ (tagSepApplies "localhost:5000/nginx" = false →
            (split_image "localhost:5000/nginx").2 = "latest")) :=
  ⟨by decide, by decide, by decide,
    C3_amended_split_image_nonempty "localhost:5000/nginx"
      (by decide) (by decide) (by decide)⟩

/-- A build stream of decoded messages only (no transport error) is drained
to its natural end: every message's output is emitted in order and the
phase succeeds, whatever error fields the messages carry. -/
theorem consumeBuild_all_ok (msgs : List BuildOutput) :
    consumeBuild (msgs.map .ok) = ((msgs.map buildStep).flatten, none) := by
  induction msgs with
  | nil => rfl
  | cons o rest ih => simp [consumeBuild, ih]

/-- A transport error in the build stream aborts consumption at that point:
only the preceding messages are processed, the loop returns the fatal
transport message, and the rest of the stream is never consumed (the result
does not depend on `rest`). -/
theorem consumeBuild_abort (pre : List BuildOutput) (e : String)
    (rest : List (Except String BuildOutput)) :
    consumeBuild (pre.map .ok ++ .error e :: rest)
      = ((pre.map buildStep).flatten, some (buildTransportMsg e)) := by
  induction pre with
  | nil => rfl
  | cons o p ih => simp [consumeBuild, ih]

/-- Push-stream analogue of `consumeBuild_all_ok`. -/
theorem consumePush_all_ok (msgs : List PushImageInfo) :
    consumePush (msgs.map .ok) = ((msgs.map pushStep).flatten, none) := by
  induction msgs with
  | nil => rfl
  | cons i rest ih => simp [consumePush, ih]

/-- Push-stream analogue of `consumeBuild_abort`. -/
theorem consumePush_abort (pre : List PushImageInfo) (e : String)
    (rest : List (Except String PushImageInfo)) :
    consumePush (pre.map .ok ++ .error e :: rest)
      = ((pre.map pushStep).flatten, some (pushTransportMsg e)) := by
  induction pre with
  | nil => rfl
  | cons i p ih => simp [consumePush, ih]

/-- C5: in both consumers a transport-level stream error aborts the phase
immediately with a fatal error (the remaining stream is not consumed, and a
build-phase transport error fails the whole run before the push is
touched), whereas an embedded error field on a decoded message is reported
to the error output while consumption continues, so both phases — and the
run — can end in overall success even after embedded errors were
reported. -/
theorem C5_transport_fatal_embedded_nonfatal :
    (∀ (pre : List BuildOutput) (e : String)
        (rest : List (Except String BuildOutput)),
      consumeBuild (pre.map .ok ++ .error e :: rest)
        = ((pre.map buildStep).flatten, some (buildTransportMsg e)))
    ∧ (∀ (pre : List PushImageInfo) (e : String)
        (rest : List (Except String PushImageInfo)),
      consumePush (pre.map .ok ++ .error e :: rest)
        = ((pre.map pushStep).flatten, some (pushTransportMsg e)))
    ∧ (∀ (s : Option String) (m : String)
        (rest : List (Except String BuildOutput)),
      consumeBuild (.ok ⟨s, some m⟩ :: rest)
        = (buildStep ⟨s, some m⟩ ++ (consumeBuild rest).1, (consumeBuild rest).2)
      ∧ OutEvent.err ("Docker build error: " ++ m) ∈ buildStep ⟨s, some m⟩)
    ∧ (∀ (st pr : Option String) (m : String)
        (rest : List (Except String PushImageInfo)),
      consumePush (.ok ⟨st, pr, some m⟩ :: rest)
        = (pushStep ⟨st, pr, some m⟩ ++ (consumePush rest).1, (consumePush rest).2)
      ∧ OutEvent.err ("❌ Docker push error: " ++ m) ∈ pushStep ⟨st, pr, some m⟩)
    ∧ (∀ (bmsgs : List BuildOutput) (pmsgs : List PushImageInfo),
      (runStreams (bmsgs.map .ok) (pmsgs.map .ok)).2 = none)
    ∧ (∀ (pre : List BuildOutput) (e : String)
        (rest : List (Except String BuildOutput))
        (ps : List (Except String PushImageInfo)),
      (runStreams (pre.map .ok ++ .error e :: rest) ps).2
        = some (buildTransportMsg e))
    ∧ (∀ (bmsgs : List BuildOutput) (pre : List PushImageInfo) (e : String)
        (rest : List (Except String PushImageInfo)),
      (runStreams (bmsgs.map .ok) (pre.map .ok ++ .error e :: rest)).2
        = some (pushTransportMsg e)) := by
  refine ⟨consumeBuild_abort, consumePush_abort, ?_, ?_, ?_, ?_, ?_⟩
  · intro s m rest
    refine ⟨rfl, ?_⟩
    cases s <;> simp [buildStep]
  · intro st pr m rest
    refine ⟨rfl, ?_⟩
    cases st <;> cases pr <;> simp [pushStep]
  · intro bmsgs pmsgs
    simp [runStreams, consumeBuild_all_ok, consumePush_all_ok]
  · intro pre e rest ps
    simp [runStreams, consumeBuild_abort]
  · intro bmsgs pre e rest
    simp [runStreams, consumeBuild_all_ok, consumePush_abort]

/-- C8: per decoded push message, following the source's match order: an
error field is reported to the error output and consumption continues with
the rest of the stream; absent an error, a status and its progress are
reported together; absent both error and progress, a status is reported
alone; a message with none of status, progress or error is silently
ignored. -/
theorem C8_push_message_reporting :
    (∀ (st pr : Option String) (e : String)
        (rest : List (Except String PushImageInfo)),
      consumePush (.ok ⟨st, pr, some e⟩ :: rest)
        = (OutEvent.err ("❌ Docker push error: " ++ e) :: (consumePush rest).1,
           (consumePush rest).2))
    ∧ (∀ (s p : String) (rest : List (Except String PushImageInfo)),
      consumePush (.ok ⟨some s, some p, none⟩ :: rest)
        = (OutEvent.out ("→ " ++ s ++ " | " ++ p) :: (consumePush rest).1,
           (consumePush rest).2))
    ∧ (∀ (s : String) (rest : List (Except String PushImageInfo)),
      consumePush (.ok ⟨some s, none, none⟩ :: rest)
        = (OutEvent.out ("→ " ++ s) :: (consumePush rest).1,
           (consumePush rest).2))
    ∧ (∀ (rest : List (Except String PushImageInfo)),
      consumePush (.ok ⟨none, none, none⟩ :: rest) = consumePush rest) := by
  refine ⟨?_, ?_, ?_, ?_⟩
  · intro st pr e rest
    cases st <;> cases pr <;> simp [consumePush, pushStep]
  · intro s p rest
    simp [consumePush, pushStep]
  · intro s rest
    simp [consumePush, pushStep]
  · intro rest
    simp [consumePush, pushStep]

/-- C10: a push message whose error field is present reports only the error,
whatever its status and progress fields hold; and a message carrying a
progress but no status (and no error) emits nothing — it is silently
ignored and consumption just continues. -/
theorem C10_push_error_precedence_progress_ignored :
    (∀ (st pr : Option String) (e : String),
      pushStep ⟨st, pr, some e⟩
        = [OutEvent.err ("❌ Docker push error: " ++ e)])
    ∧ (∀ (p : String), pushStep ⟨none, some p, none⟩ = [])
    ∧ (∀ (p : String) (rest : List (Except String PushImageInfo)),
      consumePush (.ok ⟨none, some p, none⟩ :: rest) = consumePush rest) := by
  refine ⟨?_, ?_, ?_⟩
  · intro st pr e
    cases st <;> cases pr <;> rfl
  · intro p
    rfl
  · intro p rest
    simp [consumePush, pushStep]

/-- What a successful per-entry archiving decision means: the entry is not
the root, its own path is not ignored, it is a regular file, and the tar
entry carries its normalized path and content. -/
theorem entryToTar_some {di : Option Dockerignore} {e : WalkEntry}
    {t : TarEntry} (h : entryToTar di e = some t) :
    e.relComponents ≠ [] ∧ ignoredOpt di (relStr e) = false
    ∧ e.ftype = FileType.file ∧ t = ⟨relStr e, e.content⟩ := by
  unfold entryToTar at h
  by_cases h1 : e.relComponents = []
  · rw [if_pos h1] at h
    cases h
  · rw [if_neg h1] at h
    by_cases h2 : ignoredOpt di (relStr e) = true
    · rw [if_pos h2] at h
      cases h
    · rw [if_neg h2] at h
      by_cases h3 : e.ftype = FileType.file
      · rw [if_pos h3] at h
        injection h with h4
        exact ⟨h1, by simpa using h2, h3, h4.symm⟩
      · rw [if_neg h3] at h
        cases h

/-- C6: every entry of a successfully built archive originates from a
regular-file walk entry — directories, symlinks and other special entries
are visited but never archived — its key is the entry's root-relative path
with `/` separators, and the context root itself (the entry with an empty
relative path) never produces an archive entry. -/
theorem C6_archive_entries_regular_files (ign : Option String)
    (walk : List WalkEntry) (out : List TarEntry)
    (h : build_context_tar_gz ign walk = .ok out) :
    ∀ t ∈ out, ∃ e ∈ walk, e.ftype = FileType.file ∧ e.relComponents ≠ []
      ∧ t = ⟨relStr e, e.content⟩ := by
  cases hl : load_dockerignore ign with
  | error msg =>
    simp only [build_context_tar_gz, hl] at h
    cases h
  | ok di =>
    simp only [build_context_tar_gz, hl, Except.ok.injEq] at h
    subst h
    intro t ht
    rw [List.mem_filterMap] at ht
    obtain ⟨e, he, hmap⟩ := ht
    obtain ⟨h1, _, h3, h4⟩ := entryToTar_some hmap
    exact ⟨e, he, h3, h1, h4⟩

/-- Witness for C6: with no ignore file, a walk of the root, one directory,
one symlink and one regular file `src/a.txt` archives exactly the regular
file, and that archive entry indeed originates from its walk entry. -/
theorem C6_archive_entries_regular_files_witness :
    ∃ e ∈ [WalkEntry.mk [] FileType.dir "",
           WalkEntry.mk ["src"] FileType.dir "",
           WalkEntry.mk ["link"] FileType.symlink "",
           WalkEntry.mk ["src", "a.txt"] FileType.file "hello"],
      e.ftype = FileType.file ∧ e.relComponents ≠ []
      ∧ TarEntry.mk "src/a.txt" "hello" = ⟨relStr e, e.content⟩ :=
  C6_archive_entries_regular_files none
    [WalkEntry.mk [] FileType.dir "",
     WalkEntry.mk ["src"] FileType.dir "",
     WalkEntry.mk ["link"] FileType.symlink "",
     WalkEntry.mk ["src", "a.txt"] FileType.file "hello"]
    [TarEntry.mk "src/a.txt" "hello"] rfl
    (TarEntry.mk "src/a.txt" "hello") (by decide)

/-- C9: whether a regular file appears in the archive depends only on its
own normalized relative path tested against the rule list: an entry of the
(never pruned) walk that is a regular file and not the root is archived iff
its own path is not excluded — in particular an excluded ancestor directory
entry does not by itself remove any descendant. -/
theorem C9_per_entry_filtering (ign : Option String)
    (walk : List WalkEntry) (out : List TarEntry) (di : Option Dockerignore)
    (hload : load_dockerignore ign = .ok di)
    (hbuild : build_context_tar_gz ign walk = .ok out)
    (e : WalkEntry) (he : e ∈ walk) (hf : e.ftype = FileType.file)
    (hr : e.relComponents ≠ []) :
    ((⟨relStr e, e.content⟩ : TarEntry) ∈ out
      ↔ ignoredOpt di (relStr e) = false) := by
  simp only [build_context_tar_gz, hload, Except.ok.injEq] at hbuild
  subst hbuild
  constructor
  · intro hmem
    rw [List.mem_filterMap] at hmem
    obtain ⟨e', _, hmap⟩ := hmem
    obtain ⟨_, h2, _, h4⟩ := entryToTar_some hmap
    have hname : relStr e = relStr e' := congrArg TarEntry.name h4
    rw [hname]
    exact h2
  · intro hnot
    rw [List.mem_filterMap]
    refine ⟨e, he, ?_⟩
    unfold entryToTar
    rw [if_neg hr, if_neg (by simp [hnot]), if_pos hf]

/-- Witness for C9: under the single rule `node_modules`, the directory
entry `node_modules` is itself excluded, yet the descendant regular file
`node_modules/pkg.js` is tested against its own path, not excluded, and
appears in the archive. -/
theorem C9_per_entry_filtering_witness :
    ((⟨"node_modules/pkg.js", "js"⟩ : TarEntry) ∈
        [TarEntry.mk "node_modules/pkg.js" "js"]
      ↔ ignoredOpt (some ⟨[([GlobToken.lit 'n', GlobToken.lit 'o',
          GlobToken.lit 'd', GlobToken.lit 'e', GlobToken.lit '_',
          GlobToken.lit 'm', GlobToken.lit 'o', GlobToken.lit 'd',
          GlobToken.lit 'u', GlobToken.lit 'l', GlobToken.lit 'e',
          GlobToken.lit 's'], true)]⟩) "node_modules/pkg.js" = false) :=
  C9_per_entry_filtering (some "node_modules")
    [WalkEntry.mk [] FileType.dir "",
     WalkEntry.mk ["node_modules"] FileType.dir "",
     WalkEntry.mk ["node_modules", "pkg.js"] FileType.file "js"]
    [TarEntry.mk "node_modules/pkg.js" "js"]
    (some ⟨[([GlobToken.lit 'n', GlobToken.lit 'o', GlobToken.lit 'd',
        GlobToken.lit 'e', GlobToken.lit '_', GlobToken.lit 'm',
        GlobToken.lit 'o', GlobToken.lit 'd', GlobToken.lit 'u',
        GlobToken.lit 'l', GlobToken.lit 'e', GlobToken.lit 's'], true)]⟩)
    rfl rfl
    (WalkEntry.mk ["node_modules", "pkg.js"] FileType.file "js")
    (by decide) (by decide) (by decide)

/-- A successful `parseLines` run compiles exactly the usable (non-blank,
non-comment) lines, in file order: the resulting rule list corresponds
pointwise to them — each rule's matcher is the compiled pattern of its line
and its polarity is the line's polarity. -/
theorem parseLines_ok (lines : List (List Char))
    (rules : List (GlobMatcher × Bool)) (h : parseLines lines = .ok rules) :
    List.Forall₂ (fun raw rule =>
        globParse (linePattern raw).1 = .ok rule.1
        ∧ rule.2 = (linePattern raw).2)
      (lines.filter usableLine) rules := by
  induction lines generalizing rules with
  | nil =>
    cases h
    simp
  | cons raw rest ih =>
    rw [parseLines] at h
    by_cases hu : usableLine raw = true
    · rw [if_pos hu] at h
      cases hgp : globParse (linePattern raw).1 with
      | error msg =>
        rw [hgp] at h
        cases h
      | ok m =>
        rw [hgp] at h
        cases hrest : parseLines rest with
        | error e2 =>
          rw [hrest] at h
          cases h
        | ok rs =>
          rw [hrest] at h
          injection h with h'
          subst h'
          rw [List.filter_cons, if_pos hu]
          exact List.Forall₂.cons ⟨hgp, rfl⟩ (ih rs hrest)
    · rw [if_neg hu] at h
      rw [List.filter_cons, if_neg hu]
      exact ih rules h

/-- When no line is usable, `parseLines` succeeds with no rules. -/
theorem parseLines_no_usable (lines : List (List Char))
    (h : lines.filter usableLine = []) : parseLines lines = .ok [] := by
  induction lines with
  | nil => rfl
  | cons raw rest ih =>
    rw [List.filter_cons] at h
    by_cases hu : usableLine raw = true
    · rw [if_pos hu] at h
      exact absurd h (List.cons_ne_nil _ _)
    · rw [if_neg hu] at h
      rw [parseLines, if_neg hu]
      exact ih h

/-- When some usable line fails to compile, `parseLines` fails, and its
error message is the pattern error of such a line. -/
theorem parseLines_error_of_bad (lines : List (List Char)) :
    (∃ raw ∈ lines, usableLine raw = true
      ∧ (globParse (linePattern raw).1).isOk = false) →
    ∃ raw ∈ lines, usableLine raw = true
      ∧ (globParse (linePattern raw).1).isOk = false
      ∧ parseLines lines = .error (patternErrMsg raw) := by
  induction lines with
  | nil =>
    intro hbad
    obtain ⟨raw, hmem, _⟩ := hbad
    cases hmem
  | cons raw rest ih =>
    intro hbad
    by_cases hu : usableLine raw = true
    · cases hgp : globParse (linePattern raw).1 with
      | error msg =>
        refine ⟨raw, List.mem_cons_self raw rest, hu, ?_, ?_⟩
        · rw [hgp]
          rfl
        · rw [parseLines, if_pos hu, hgp]
      | ok m =>
        obtain ⟨r, hm, hru, hrb⟩ := hbad
        have hrr : r ∈ rest := by
          cases List.mem_cons.mp hm with
          | inl heq =>
            subst heq
            rw [hgp] at hrb
            cases hrb
          | inr hmm => exact hmm
        obtain ⟨r', hm', hu', hb', herr⟩ := ih ⟨r, hrr, hru, hrb⟩
        refine ⟨r', List.mem_cons_of_mem _ hm', hu', hb', ?_⟩
        rw [parseLines, if_pos hu, hgp, herr]
        rfl
    · obtain ⟨r, hm, hru, hrb⟩ := hbad
      have hrr : r ∈ rest := by
        cases List.mem_cons.mp hm with
        | inl heq =>
          subst heq
          exact absurd hru hu
        | inr hmm => exact hmm
      obtain ⟨r', hm', hu', hb', herr⟩ := ih ⟨r, hrr, hru, hrb⟩
      refine ⟨r', List.mem_cons_of_mem _ hm', hu', hb', ?_⟩
      rw [parseLines, if_neg hu]
      exact herr

/-- C7: `load_dockerignore` returns no engine exactly when the ignore file
is absent or, after dropping blank and comment lines, yields no rules;
otherwise the engine's rules follow file line order, a leading `!` is
stripped and marks re-include (`exclude = false`) while every other line
marks `exclude = true`; and an uncompilable pattern makes loading fail with
an error carrying the offending raw line, producing no partial engine. -/
theorem C7_load_dockerignore_contract (text : String) :
    (load_dockerignore none = .ok none)
    ∧ (∀ raw : List Char,
        ((rustTrim raw).head? = some '!' →
          linePattern raw = (trimL ((rustTrim raw).drop 1), false))
        ∧ ((rustTrim raw).head? ≠ some '!' →
          linePattern raw = (rustTrim raw, true)))
    ∧ (load_dockerignore (some text) = .ok none ↔
        (rustLines text.toList).filter usableLine = [])
    ∧ (∀ di, load_dockerignore (some text) = .ok (some di) →
        List.Forall₂ (fun raw rule =>
            globParse (linePattern raw).1 = .ok rule.1
            ∧ rule.2 = (linePattern raw).2)
          ((rustLines text.toList).filter usableLine) di.rules)
    ∧ ((∃ raw ∈ rustLines text.toList, usableLine raw = true
          ∧ (globParse (linePattern raw).1).isOk = false) →
        ∃ raw ∈ rustLines text.toList, usableLine raw = true
          ∧ (globParse (linePattern raw).1).isOk = false
          ∧ load_dockerignore (some text)
              = .error ("Padrão inválido em .dockerignore: " ++ String.mk raw)) := by
  refine ⟨rfl, ?_, ?_, ?_, ?_⟩
  · intro raw
    constructor
    · intro hh
      unfold linePattern
      rw [if_pos hh]
    · intro hh
      unfold linePattern
      rw [if_neg hh]
  · constructor
    · intro h
      cases hp : parseLines (rustLines text.toList) with
      | error e =>
        rw [load_dockerignore, hp] at h
        cases h
      | ok rules =>
        simp only [load_dockerignore, hp] at h
        by_cases he : rules.isEmpty = true
        · have : rules = [] := by simpa using he
          subst this
          have := parseLines_ok _ _ hp
          exact List.forall₂_nil_right_iff.mp this
        · rw [if_neg he] at h
          cases h
    · intro hfil
      rw [load_dockerignore, parseLines_no_usable _ hfil]
      rfl
  · intro di h
    cases hp : parseLines (rustLines text.toList) with
    | error e =>
      rw [load_dockerignore, hp] at h
      cases h
    | ok rules =>
      simp only [load_dockerignore, hp] at h
      by_cases he : rules.isEmpty = true
      · rw [if_pos he] at h
        cases h
      · rw [if_neg he] at h
        injection h with h'
        injection h' with h''
        rw [← h'']
        exact parseLines_ok _ _ hp
  · intro hbad
    obtain ⟨raw, hm, hu, hb, herr⟩ := parseLines_error_of_bad _ hbad
    refine ⟨raw, hm, hu, hb, ?_⟩
    rw [load_dockerignore, herr]
    rfl

/-- Witness for C7 at concrete inputs: a comments-and-blanks-only file
yields no engine; the file `"a\n!b"` yields the two rules
`[a exclude, b re-include]` in line order; and the file `"ok\n["` (whose
second line opens an unclosed character class) makes loading fail with the
error message naming that raw line. -/
theorem C7_load_dockerignore_contract_witness :
    (load_dockerignore (some "# note\n\n   ") = .ok none)
    ∧ List.Forall₂ (fun raw rule =>
          globParse (linePattern raw).1 = .ok rule.1
          ∧ rule.2 = (linePattern raw).2)
        ((rustLines "a\n!b".toList).filter usableLine)
        (Dockerignore.mk
          [([GlobToken.lit 'a'], true), ([GlobToken.lit 'b'], false)]).rules
    ∧ (∃ raw ∈ rustLines "ok\n[".toList, usableLine raw = true
        ∧ (globParse (linePattern raw).1).isOk = false
        ∧ load_dockerignore (some "ok\n[")
            = .error ("Padrão inválido em .dockerignore: " ++ String.mk raw)) :=
  ⟨(C7_load_dockerignore_contract "# note\n\n   ").2.2.1.mpr (by decide),
   (C7_load_dockerignore_contract "a\n!b").2.2.2.1
     (Dockerignore.mk
       [([GlobToken.lit 'a'], true), ([GlobToken.lit 'b'], false)]) rfl,
   (C7_load_dockerignore_contract "ok\n[").2.2.2.2
     ⟨['['], by decide, by decide, by decide⟩⟩

/-- A glob consisting solely of literal tokens matches exactly its own
character sequence. -/
theorem globMatchFuel_lits (n : Nat) :
    ∀ (cs ds : List Char), cs.length + ds.length < n →
      globMatchFuel n (cs.map GlobToken.lit) ds = (cs == ds) := by
  induction n with
  | zero => intro cs ds h; omega
  | succ k ih =>
    intro cs ds h
    match cs, ds with
    | [], [] => rfl
    | [], _ :: _ => rfl
    | c :: cs, [] => rfl
    | c :: cs, d :: ds =>
      simp only [List.length_cons] at h
      show (c == d && globMatchFuel k (cs.map GlobToken.lit) ds)
        = ((c :: cs) == (d :: ds))
      rw [ih cs ds (by omega)]
      rfl

/-- `is_match` of an all-literal glob is equality with the pattern text. -/
theorem is_match_lits (cs : List Char) (s : String) :
    GlobMatcher.is_match (cs.map GlobToken.lit) s = (cs == s.toList) := by
  unfold GlobMatcher.is_match globMatchL
  exact globMatchFuel_lits _ cs s.toList (by simp only [List.length_map]; omega)

/-- Under the two compiled rules of the ignore file
`build/` + `node_modules`, a path is ignored exactly when it is the literal
string `"build/"` or the literal string `"node_modules"`. -/
theorem is_ignored_build_node_modules (rel : String) :
    Dockerignore.is_ignored
        ⟨[("build/".toList.map GlobToken.lit, true),
          ("node_modules".toList.map GlobToken.lit, true)]⟩ rel = true
      ↔ (rel = "build/" ∨ rel = "node_modules") := by
  unfold Dockerignore.is_ignored
  simp only [List.foldl_cons, List.foldl_nil, is_match_lits]
  have e1 : (("build/".toList == rel.toList) = true) ↔ rel = "build/" := by
    rw [beq_iff_eq, String.ext_iff]
    exact ⟨fun h => h.symm, fun h => h.symm⟩
  have e2 : (("node_modules".toList == rel.toList) = true) ↔ rel = "node_modules" := by
    rw [beq_iff_eq, String.ext_iff]
    exact ⟨fun h => h.symm, fun h => h.symm⟩
  by_cases h2 : ("node_modules".toList == rel.toList) = true
  · simp [h2, e2.mp h2]
  · by_cases h1 : ("build/".toList == rel.toList) = true
    · simp [h1, h2, e1.mp h1]
    · simp only [h1, h2, Bool.false_eq_true, if_false]
      constructor
      · intro h
        simp at h
      · rintro (h | h)
        · exact absurd (e1.mpr h) h1
        · exact absurd (e2.mpr h) h2

/-- C2 counterexample: with `.dockerignore` contents `build/` and
`node_modules`, archiving a tree holding `build/app.o`,
`node_modules/pkg/index.js` and `node_modules.log` produces an archive that
CONTAINS the files under `build/` and `node_modules/` (each glob matches
only the exact path `"build/"` or `"node_modules"`, not descendants), so
the claimed absence fails; `node_modules.log` is present as the claim
says. -/
theorem C2_counterexample_descendants_archived :
    build_context_tar_gz (some "build/\nnode_modules")
        [WalkEntry.mk [] FileType.dir "",
         WalkEntry.mk ["Dockerfile"] FileType.file "FROM x",
         WalkEntry.mk ["build"] FileType.dir "",
         WalkEntry.mk ["build", "app.o"] FileType.file "obj",
         WalkEntry.mk ["node_modules"] FileType.dir "",
         WalkEntry.mk ["node_modules", "pkg"] FileType.dir "",
         WalkEntry.mk ["node_modules", "pkg", "index.js"] FileType.file "js",
         WalkEntry.mk ["node_modules.log"] FileType.file "log"]
      = .ok [TarEntry.mk "Dockerfile" "FROM x",
             TarEntry.mk "build/app.o" "obj",
             TarEntry.mk "node_modules/pkg/index.js" "js",
             TarEntry.mk "node_modules.log" "log"]
    ∧ (TarEntry.mk "build/app.o" "obj" ∈
        [TarEntry.mk "Dockerfile" "FROM x",
         TarEntry.mk "build/app.o" "obj",
         TarEntry.mk "node_modules/pkg/index.js" "js",
         TarEntry.mk "node_modules.log" "log"])
    ∧ (TarEntry.mk "node_modules/pkg/index.js" "js" ∈
        [TarEntry.mk "Dockerfile" "FROM x",
         TarEntry.mk "build/app.o" "obj",
         TarEntry.mk "node_modules/pkg/index.js" "js",
         TarEntry.mk "node_modules.log" "log"]) :=
  ⟨rfl, by decide, by decide⟩

/-- C2 (amended): with the ignore file `build/` + `node_modules`, the
archive of any walk keeps every regular, non-root file EXCEPT those whose
normalized relative path is literally `"build/"` or `"node_modules"`: the
patterns target only those exact paths, so descendants under `build/` and
`node_modules/` are archived, and the sibling file `node_modules.log` is
archived. -/
theorem C2_amended_exact_paths_only (walk : List WalkEntry) :
    build_context_tar_gz (some "build/\nnode_modules") walk
      = .ok (walk.filterMap (fun e =>
          if e.relComponents = [] then none
          else if relStr e = "build/" ∨ relStr e = "node_modules" then none
          else if e.ftype = FileType.file then some ⟨relStr e, e.content⟩
          else none)) := by
  have hload : load_dockerignore (some "build/\nnode_modules")
      = .ok (some ⟨[("build/".toList.map GlobToken.lit, true),
                    ("node_modules".toList.map GlobToken.lit, true)]⟩) := rfl
  unfold build_context_tar_gz
  rw [hload]
  have hfun : ∀ e, entryToTar
      (some ⟨[("build/".toList.map GlobToken.lit, true),
              ("node_modules".toList.map GlobToken.lit, true)]⟩) e
      = (if e.relComponents = [] then none
         else if relStr e = "build/" ∨ relStr e = "node_modules" then none
         else if e.ftype = FileType.file then
           some (TarEntry.mk (relStr e) e.content)
         else none) := by
    intro e
    unfold entryToTar ignoredOpt
    by_cases h1 : e.relComponents = []
    · rw [if_pos h1, if_pos h1]
    · rw [if_neg h1, if_neg h1]
      by_cases h2 : relStr e = "build/" ∨ relStr e = "node_modules"
      · rw [if_pos ((is_ignored_build_node_modules (relStr e)).mpr h2),
          if_pos h2]
      · rw [if_neg (fun hc =>
            h2 ((is_ignored_build_node_modules (relStr e)).mp hc)),
          if_neg h2]
  exact congrArg Except.ok (List.filterMap_congr (fun e _ => hfun e))

end Paastel
